import Mathlib

/-!
Verification of the bonjorno daily-notes core: a shallow embedding of
`DateService.ts` and `DailyNotesManager.ts` (date codec, note index cache,
pagination, note lifecycle), with theorems settling the spec claims.

Strings are modelled as `List Char`; JavaScript `Date` values as normalized
year/month/day triples; the Obsidian vault as an oracle of query/effect
functions supplied per operation.
-/

namespace Bonjorno

/-! ### Character and string helpers (JS string primitives) -/

/-- `\d` from the filename regex: an ASCII decimal digit. -/
def isDigitChar (c : Char) : Bool := '0' ≤ c && c ≤ '9'

/-- The decimal digit character for `n` (models JS `String(n)` digit output). -/
def digitChar : Nat → Char
  | 0 => '0' | 1 => '1' | 2 => '2' | 3 => '3' | 4 => '4'
  | 5 => '5' | 6 => '6' | 7 => '7' | 8 => '8' | 9 => '9'
  | _ => '*'

/-- Numeric value of a digit character. -/
def digitVal (c : Char) : Nat := c.toNat - '0'.toNat

/-- Value of a list of digit characters read in base 10. -/
def digitsVal (s : List Char) : Nat := s.foldl (fun acc c => acc * 10 + digitVal c) 0

/-- Models JS `parseInt(s, 10)` on the digit strings the filename regex admits:
`none` is `NaN` (no leading digit); otherwise the value of the maximal digit
prefix.  Sign and whitespace handling are irrelevant here because every call
site feeds a component of a regex-validated filename. -/
def jsParseInt (s : List Char) : Option Nat :=
  match s with
  | [] => none
  | c :: _ => if isDigitChar c then some (digitsVal (s.takeWhile isDigitChar)) else none

/-- Fuelled digit emission for `natToDigits` (fuel bounds the digit count). -/
def natToDigitsAux : Nat → Nat → List Char → List Char
  | 0, _, acc => acc
  | fuel + 1, n, acc =>
    if n = 0 then acc else natToDigitsAux fuel (n / 10) (digitChar (n % 10) :: acc)

/-- Decimal rendering of a natural number (models JS `String(n)` for n ≥ 0). -/
def natToDigits (n : Nat) : List Char :=
  if n = 0 then ['0'] else natToDigitsAux n n []

/-- Models JS `.padStart(2, "0")`. -/
def padStart2 (s : List Char) : List Char := List.replicate (2 - s.length) '0' ++ s

/-- JS `<=` on strings: lexicographic comparison by code unit. -/
def lexLe : List Char → List Char → Bool
  | [], _ => true
  | _ :: _, [] => false
  | a :: as, b :: bs => if a < b then true else if b < a then false else lexLe as bs

/-- JS `String.prototype.split(sep)` for a one-character separator. -/
def splitOnChar (sep : Char) : List Char → List (List Char)
  | [] => [[]]
  | c :: rest =>
    if c = sep then [] :: splitOnChar sep rest
    else
      match splitOnChar sep rest with
      | [] => [[c]]
      | h :: t => (c :: h) :: t

/-- If `pat` is a prefix of `s`, returns the remainder after it. -/
def dropPat (pat s : List Char) : Option (List Char) :=
  match pat, s with
  | [], s => some s
  | _ :: _, [] => none
  | p :: ps, c :: cs => if p = c then dropPat ps cs else none

/-- JS `String.prototype.replace(pat, repl)` with a plain-string pattern:
replaces the first occurrence of `pat` (if any) with `repl`. -/
def replaceFirst (pat repl : List Char) : List Char → List Char
  | [] => []
  | c :: rest =>
    match dropPat pat (c :: rest) with
    | some tail => repl ++ tail
    | none => c :: replaceFirst pat repl rest

/-- Obsidian's `TFile.extension`: the part of the name after the last dot
(empty when the name has no dot). -/
def extensionOf (name : List Char) : List Char :=
  if name.contains '.' then (name.reverse.takeWhile (fun c => c ≠ '.')).reverse else []

/-! ### JS Date model

A JS `Date` constructed from year/month/day and observed only through
`getFullYear`/`getMonth`/`getDate` is a normalized triple.  The code only
constructs dates with `0 ≤ month ≤ 11` and `1 ≤ day ≤ 31` after explicit
range checks, and with years ≥ 1900, so the two-digit-year quirk of the
`Date` constructor never applies. -/

structure JSDate where
  year : Nat
  /-- 0-based month, as in JS `getMonth`. -/
  month : Nat
  /-- 1-based day of month, as in JS `getDate`. -/
  day : Nat
deriving DecidableEq, Repr

def isLeapYear (y : Nat) : Bool := (y % 4 == 0 && y % 100 != 0) || y % 400 == 0

/-- Days in 0-based month `m0` of year `y` (Gregorian, as JS `Date`). -/
def daysInMonth0 (y m0 : Nat) : Nat :=
  if m0 = 1 then (if isLeapYear y then 29 else 28)
  else if m0 = 3 ∨ m0 = 5 ∨ m0 = 8 ∨ m0 = 10 then 30
  else 31

/-- Day-overflow normalization of the JS `Date` constructor: roll an excessive
day-of-month into following months.  Fuel bounds the rolls; each roll removes
at least 28 days, so `d` itself is always enough fuel. -/
def normDays : Nat → Nat → Nat → Nat → JSDate
  | 0, y, m0, d => ⟨y, m0, d⟩
  | fuel + 1, y, m0, d =>
    if d > daysInMonth0 y m0 then
      if m0 = 11 then normDays fuel (y + 1) 0 (d - daysInMonth0 y m0)
      else normDays fuel y (m0 + 1) (d - daysInMonth0 y m0)
    else ⟨y, m0, d⟩

/-- Models `new Date(y, m0, d)` for the arguments the code passes
(`y ≥ 1900`, `0 ≤ m0 ≤ 11` after its own checks, `1 ≤ d ≤ 31`). -/
def mkJSDate (y m0 d : Nat) : JSDate := normDays d (y + m0 / 12) (m0 % 12) d

/-- A rank strictly monotone in calendar order for normalized dates; models
`getTime()` up to sign of differences, which is all the sort comparator
observes. -/
def dateRank (d : JSDate) : Nat := d.year * 372 + d.month * 31 + d.day

/-- `DateService.compareDates`: sign-faithful model of
`d1.getTime() - d2.getTime()` at midnight. -/
def compareDates (d1 d2 : JSDate) : Int := (dateRank d1 : Int) - (dateRank d2 : Int)

/-! ### DateService -/

/-- `NOTE_FILE_EXTENSION` from `constants.ts`. -/
def mdExt : List Char := ['.', 'm', 'd']

/-- `DateService.formatDateToFileName`: `YYYY-MM-DD` with zero-padded month
and day (the year is rendered unpadded, as `String(year)` does). -/
def formatDateToFileName (date : JSDate) : List Char :=
  natToDigits date.year ++ '-' :: padStart2 (natToDigits (date.month + 1))
    ++ '-' :: padStart2 (natToDigits date.day)

/-- `DAILY_NOTE_FILENAME_REGEX` = `^\d{4}-\d{2}-\d{2}\.md$`, compiled to a
shape check on the 13-character list. -/
def dailyNoteRegexTest (s : List Char) : Bool :=
  match s with
  | [y1, y2, y3, y4, h1, m1, m2, h2, d1, d2, dot, em, ed] =>
    isDigitChar y1 && isDigitChar y2 && isDigitChar y3 && isDigitChar y4 &&
    h1 = '-' && isDigitChar m1 && isDigitChar m2 && h2 = '-' &&
    isDigitChar d1 && isDigitChar d2 && dot = '.' && em = 'm' && ed = 'd'
  | _ => false

/-- `DateService.parseDateFromFilename`. -/
def parseDateFromFilename (filename : List Char) : Option JSDate :=
  let nameWithoutExt := replaceFirst mdExt [] filename
  if !dailyNoteRegexTest filename then none
  else
    match splitOnChar '-' nameWithoutExt with
    | [p0, p1, p2] =>
      match jsParseInt p0, jsParseInt p1, jsParseInt p2 with
      | some yearN, some monthRaw, some dayN =>
        -- `month` is 0-indexed in the source; `parseInt(parts[1]) - 1` may be
        -- negative (e.g. "00"), so it is carried as an integer here.
        let month : Int := (monthRaw : Int) - 1
        if yearN < 1900 ∨ yearN > 2100 then none
        else if month < 0 ∨ month > 11 then none
        else if dayN < 1 ∨ dayN > 31 then none
        else
          let date := mkJSDate yearN month.toNat dayN
          if date.year = yearN ∧ (date.month : Int) = month ∧ date.day = dayN then
            some date
          else none
      | _, _, _ => none
    | _ => none

/-- `DateService.isValidDailyNoteFilename`. -/
def isValidDailyNoteFilename (filename : List Char) : Bool :=
  if !dailyNoteRegexTest filename then false
  else (parseDateFromFilename filename).isSome

/-- `DateService.generateFilename`. -/
def generateFilename (date : JSDate) : List Char := formatDateToFileName date ++ mdExt

/-- `DateService.parseDateString`. -/
def parseDateString (dateString : List Char) : Option JSDate :=
  parseDateFromFilename (dateString ++ mdExt)

/-- Insert into a comparator-sorted list (place of `x` before the first `y`
with `c x y ≤ 0`), the step of a stable comparator sort. -/
def insertCmp (c : List Char → List Char → Int) (x : List Char) :
    List (List Char) → List (List Char)
  | [] => [x]
  | y :: ys => if c x y ≤ 0 then x :: y :: ys else y :: insertCmp c x ys

/-- Stable comparator sort modelling JS `Array.prototype.sort(cmp)`. -/
def sortByCmp (c : List Char → List Char → Int) : List (List Char) → List (List Char)
  | [] => []
  | x :: xs => insertCmp c x (sortByCmp c xs)

/-- The comparator of `DateService.sortDateStringsDesc`. -/
def dateStringsDescCmp (a b : List Char) : Int :=
  match parseDateString a, parseDateString b with
  | some dateA, some dateB => compareDates dateB dateA
  | _, _ => 0

/-- `DateService.sortDateStringsDesc`: sort by parsed date, newest first;
pairs with an unparseable member compare equal. -/
def sortDateStringsDesc (dateStrings : List (List Char)) : List (List Char) :=
  sortByCmp dateStringsDescCmp dateStrings


/-! ### Vault model

The Obsidian vault is the external collaborator.  Each manager operation
receives a `Vault` oracle fixing the answers of the queries it performs and
the success or failure of its storage effects; the effects the operation
performs are reported in an explicit trace. -/

/-- Obsidian `TFile`: full path and basename (with extension); the
`extension` property is derived from the name via `extensionOf`. -/
structure TFile where
  path : List Char
  name : List Char
deriving DecidableEq, Repr, Inhabited

/-- A child of a folder (`TAbstractFile`): a file or a sub-folder. -/
inductive FolderEntry where
  | file (f : TFile)
  | subfolder (path : List Char)
deriving DecidableEq, Repr

/-- Result of `vault.getAbstractFileByPath`: a file, a folder (with its
children), or nothing. -/
inductive AbstractEntry where
  | file (f : TFile)
  | folder (children : List FolderEntry)
deriving DecidableEq, Repr

/-- The vault oracle.  `none` / `false` outcomes model the corresponding
vault call throwing. -/
structure Vault where
  lookup : List Char → Option AbstractEntry
  read : TFile → Option (List Char)
  create : List Char → List Char → Option TFile
  createFolderOk : List Char → Bool
  modifyOk : TFile → Bool
  deleteOk : TFile → Bool

/-- Storage effects an operation performed, in order. -/
inductive Eff where
  | listedDir (path : List Char)
  | createdFolder (path : List Char)
  | createdFile (path content : List Char)
  | modifiedFile (f : TFile) (content : List Char)
  | deletedFile (f : TFile)
deriving DecidableEq, Repr

/-! ### DailyNotesManager state and data types -/

/-- The manager's mutable state: the `dateString → TFile` cache (a JS `Map`,
so an insertion-ordered association list with unique keys), the last scan
timestamp, and the settings field the manager reads
(`settings.dailyNotesPath`). -/
structure ManagerState where
  cachedFileList : List (List Char × TFile)
  lastScanTime : Nat
  dailyNotesPath : List Char
deriving DecidableEq, Repr

/-- JS `Map.prototype.get`. -/
def mapGet (m : List (List Char × TFile)) (k : List Char) : Option TFile :=
  match m with
  | [] => none
  | (k', v) :: rest => if k' = k then some v else mapGet rest k

/-- JS `Map.prototype.set`: update in place, or append a new key. -/
def mapSet (m : List (List Char × TFile)) (k : List Char) (v : TFile) :
    List (List Char × TFile) :=
  match m with
  | [] => [(k, v)]
  | (k', v') :: rest => if k' = k then (k', v) :: rest else (k', v') :: mapSet rest k v

/-- JS `Map.prototype.delete`. -/
def mapDelete (m : List (List Char × TFile)) (k : List Char) :
    List (List Char × TFile) :=
  match m with
  | [] => []
  | (k', v') :: rest => if k' = k then rest else (k', v') :: mapDelete rest k

/-- JS `Map.prototype.keys()` (insertion order). -/
def mapKeys (m : List (List Char × TFile)) : List (List Char) := m.map Prod.fst

/-- `FileOperationResult` from `types.ts`. -/
structure FileOperationResult where
  success : Bool
  file : Option TFile := none
  error : Option (List Char) := none
deriving DecidableEq, Repr

/-- `DailyNote` from `types.ts`.  The UI-only `displayDate` field
(`formatDateForDisplay`) is outside the verified core and omitted; `exists`
is renamed because it is reserved in Lean. -/
structure DailyNote where
  date : JSDate
  dateString : List Char
  content : List Char
  file : Option TFile
  existsFlag : Bool
  isDirty : Bool
deriving DecidableEq, Repr

/-- `LoadNotesOptions` from `types.ts` (`append` is accepted and unused,
as in the source). -/
structure LoadNotesOptions where
  count : Nat
  startDate : Option JSDate := none
  append : Bool := false

/-! ### DailyNotesManager operations -/

/-- `DailyNotesManager.getNotePath`. -/
def getNotePath (st : ManagerState) (dateString : List Char) : List Char :=
  st.dailyNotesPath ++ '/' :: (dateString ++ mdExt)

/-- `DailyNotesManager.updateSettings`: replaces the settings reference and
clears the cached file list (the last scan time is left as it was). -/
def updateSettings (st : ManagerState) (newPath : List Char) : ManagerState :=
  { st with dailyNotesPath := newPath, cachedFileList := [] }

/-- `DailyNotesManager.clearCache`. -/
def clearCache (st : ManagerState) : ManagerState :=
  { st with cachedFileList := [], lastScanTime := 0 }

/-- `DailyNotesManager.ensureDirectoryExists`. -/
def ensureDirectoryExists (v : Vault) (st : ManagerState) : Bool × List Eff :=
  match v.lookup st.dailyNotesPath with
  | none =>
    if v.createFolderOk st.dailyNotesPath then
      (true, [Eff.createdFolder st.dailyNotesPath])
    else (false, [])
  | some (AbstractEntry.file _) => (false, [])
  | some (AbstractEntry.folder _) => (true, [])

/-- One iteration of the scan loop of `scanDirectory`: insert the child if it
is a `TFile` with extension `md` and a valid daily-note filename, keyed by
the filename with its first `.md` removed. -/
def scanStep (acc : List (List Char × TFile)) (child : FolderEntry) :
    List (List Char × TFile) :=
  match child with
  | FolderEntry.file f =>
    if extensionOf f.name = ('m' :: ['d']) ∧ isValidDailyNoteFilename f.name then
      mapSet acc (replaceFirst mdExt [] f.name) f
    else acc
  | FolderEntry.subfolder _ => acc

/-- The cache-building loop of `scanDirectory`, starting from the cleared
cache. -/
def buildCache (children : List FolderEntry) : List (List Char × TFile) :=
  children.foldl scanStep []

/-- `DailyNotesManager.scanDirectory`.  Returns the date strings, the new
state, and the effect trace. -/
def scanDirectory (v : Vault) (st : ManagerState) (now : Nat) (forceRefresh : Bool) :
    List (List Char) × ManagerState × List Eff :=
  if !forceRefresh ∧ now - st.lastScanTime < 5000 then
    (mapKeys st.cachedFileList, st, [])
  else
    match v.lookup st.dailyNotesPath with
    | some (AbstractEntry.folder children) =>
      let newCache := buildCache children
      (sortDateStringsDesc (mapKeys newCache),
       { st with cachedFileList := newCache, lastScanTime := now },
       [Eff.listedDir st.dailyNotesPath])
    | _ => ([], st, [])

/-- The body of the per-date loop in `loadNotes` (`continue` on an
unparseable date string; a failed read degrades to empty content). -/
def loadNoteEntry (v : Vault) (cache : List (List Char × TFile))
    (dateString : List Char) : Option DailyNote :=
  match parseDateString dateString with
  | none => none
  | some date =>
    let file := mapGet cache dateString
    let content :=
      match file with
      | some f => (v.read f).getD []
      | none => []
    some { date := date, dateString := dateString, content := content,
           file := file, existsFlag := true, isDirty := false }

/-- `DailyNotesManager.loadNotes`.  `nowDate` stands for the `new Date()`
used when `options.startDate` is absent. -/
def loadNotes (v : Vault) (st : ManagerState) (now : Nat) (nowDate : JSDate)
    (options : LoadNotesOptions) : List DailyNote × ManagerState × List Eff :=
  let start := options.startDate.getD nowDate
  let scanned := scanDirectory v st now false
  let existingDates := scanned.1
  let startDateString := formatDateToFileName start
  let filteredDates := existingDates.filter (fun ds => lexLe ds startDateString)
  let datesToLoad := filteredDates.take options.count
  (datesToLoad.filterMap (loadNoteEntry v scanned.2.1.cachedFileList),
   scanned.2.1, scanned.2.2)

/-- `DailyNotesManager.createNote`. -/
def createNote (v : Vault) (st : ManagerState) (dateString content : List Char) :
    FileOperationResult × ManagerState × List Eff :=
  let dir := ensureDirectoryExists v st
  if !dir.1 then
    ({ success := false, error := some ("Permission denied accessing daily notes directory".data) },
     st, dir.2)
  else
    let path := getNotePath st dateString
    match v.lookup path with
    | some _ =>
      ({ success := false, error := some ("File already exists".data) }, st, dir.2)
    | none =>
      match v.create path content with
      | some file =>
        ({ success := true, file := some file },
         { st with cachedFileList := mapSet st.cachedFileList dateString file },
         dir.2 ++ [Eff.createdFile path content])
      | none =>
        ({ success := false, error := some ("Error".data) }, st, dir.2)

/-- `DailyNotesManager.saveNote`. -/
def saveNote (v : Vault) (st : ManagerState) (dateString content : List Char) :
    FileOperationResult × ManagerState × List Eff :=
  match mapGet st.cachedFileList dateString with
  | none => createNote v st dateString content
  | some file =>
    match v.lookup file.path with
    | none =>
      createNote v { st with cachedFileList := mapDelete st.cachedFileList dateString }
        dateString content
    | some _ =>
      if v.modifyOk file then
        ({ success := true, file := some file }, st, [Eff.modifiedFile file content])
      else
        ({ success := false, error := some ("Error".data) }, st, [])

/-- `DailyNotesManager.deleteNote`. -/
def deleteNote (v : Vault) (st : ManagerState) (dateString : List Char) :
    FileOperationResult × ManagerState × List Eff :=
  match mapGet st.cachedFileList dateString with
  | none => ({ success := false, error := some ("File not found".data) }, st, [])
  | some file =>
    if v.deleteOk file then
      ({ success := true },
       { st with cachedFileList := mapDelete st.cachedFileList dateString },
       [Eff.deletedFile file])
    else
      ({ success := false, error := some ("Error".data) }, st, [])

/-- `DailyNotesManager.readNote`: `none` both when no handle is cached and
when the read throws. -/
def readNote (v : Vault) (st : ManagerState) (dateString : List Char) :
    Option (List Char) :=
  match mapGet st.cachedFileList dateString with
  | none => none
  | some file => v.read file

/-- `DailyNotesManager.noteExists`. -/
def noteExists (v : Vault) (st : ManagerState) (now : Nat) (dateString : List Char) :
    Bool × ManagerState × List Eff :=
  let scanned := scanDirectory v st now false
  (scanned.1.contains dateString, scanned.2.1, scanned.2.2)

/-- `DailyNotesManager.getOrCreateTodayNote`.  `today` stands for
`new Date()`; a thrown error (creation failure) is modelled as `none`. -/
def getOrCreateTodayNote (v : Vault) (st : ManagerState) (now : Nat) (today : JSDate) :
    Option DailyNote × ManagerState × List Eff :=
  let dateString := formatDateToFileName today
  let scanned := scanDirectory v st now false
  if scanned.1.contains dateString then
    let loaded := loadNotes v scanned.2.1 now today
      { count := 1, startDate := some today, append := false }
    (loaded.1.head?, loaded.2.1, scanned.2.2 ++ loaded.2.2)
  else
    let created := createNote v scanned.2.1 dateString []
    if created.1.success then
      (some { date := today, dateString := dateString, content := [],
              file := created.1.file, existsFlag := true, isDirty := false },
       created.2.1, scanned.2.2 ++ created.2.2)
    else (none, created.2.1, scanned.2.2 ++ created.2.2)

/-- `DailyNotesManager.refreshFile`. -/
def refreshFile (v : Vault) (st : ManagerState) (dateString : List Char) :
    ManagerState :=
  match v.lookup (getNotePath st dateString) with
  | some (AbstractEntry.file f) =>
    { st with cachedFileList := mapSet st.cachedFileList dateString f }
  | _ => { st with cachedFileList := mapDelete st.cachedFileList dateString }

/-! ### Operation sequences (for the cache-key invariant) -/

/-- One public manager operation together with the vault oracle and clock
values it runs against. -/
inductive MOp where
  | scan (v : Vault) (now : Nat) (force : Bool)
  | create (v : Vault) (dateString content : List Char)
  | save (v : Vault) (dateString content : List Char)
  | del (v : Vault) (dateString : List Char)
  | getOrCreateToday (v : Vault) (now : Nat) (today : JSDate)
  | refresh (v : Vault) (dateString : List Char)

/-- The state transition of one operation. -/
def applyOp (st : ManagerState) : MOp → ManagerState
  | MOp.scan v now force => (scanDirectory v st now force).2.1
  | MOp.create v ds content => (createNote v st ds content).2.1
  | MOp.save v ds content => (saveNote v st ds content).2.1
  | MOp.del v ds => (deleteNote v st ds).2.1
  | MOp.getOrCreateToday v now today => (getOrCreateTodayNote v st now today).2.1
  | MOp.refresh v ds => refreshFile v st ds

/-- Run a sequence of operations. -/
def runOps (st : ManagerState) : List MOp → ManagerState
  | [] => st
  | op :: ops => runOps (applyOp st op) ops

/-- The manager state at construction: empty cache, last scan time 0. -/
def initialState (path : List Char) : ManagerState :=
  { cachedFileList := [], lastScanTime := 0, dailyNotesPath := path }

/-- "Passes date-string validation": parses as a valid calendar date in
canonical `YYYY-MM-DD` form. -/
def validKey (dateString : List Char) : Bool := (parseDateString dateString).isSome

/-- The claimed cache invariant: every key passes date-string validation. -/
def cacheKeysValid (st : ManagerState) : Prop :=
  ∀ p ∈ st.cachedFileList, validKey p.1 = true

instance (st : ManagerState) : Decidable (cacheKeysValid st) := by
  unfold cacheKeysValid; infer_instance

/-! ### Concrete fixtures used by witnesses and counterexamples -/

/-- A vault on which every query fails / every effect throws. -/
def constVault : Vault :=
  { lookup := fun _ => none, read := fun _ => none, create := fun _ _ => none,
    createFolderOk := fun _ => false, modifyOk := fun _ => false,
    deleteOk := fun _ => false }

def f10 : TFile :=
  ⟨"daily-notes/2026-01-10.md".data, "2026-01-10.md".data⟩

def f15 : TFile :=
  ⟨"daily-notes/2026-01-15.md".data, "2026-01-15.md".data⟩

/-- A state whose cache was populated in the order 2026-01-10, 2026-01-15
(e.g. by a scan of a directory listing in that order) and whose last scan is
recent. -/
def freshState : ManagerState :=
  { cachedFileList := [(("2026-01-10".data), f10), (("2026-01-15".data), f15)],
    lastScanTime := 1000, dailyNotesPath := "daily-notes".data }

/-- A vault whose reads succeed with empty content. -/
def vaultR : Vault :=
  { lookup := fun _ => none, read := fun _ => some [], create := fun _ _ => none,
    createFolderOk := fun _ => false, modifyOk := fun _ => false,
    deleteOk := fun _ => false }

/-- A state caching only 2026-01-15, with a recent scan. -/
def stWith : ManagerState :=
  { cachedFileList := [(("2026-01-15".data), f15)], lastScanTime := 1000,
    dailyNotesPath := "daily-notes".data }

/-- A vault in which `f15` is present and modifiable. -/
def vaultB : Vault :=
  { lookup := fun p => if p = f15.path then some (AbstractEntry.file f15) else none,
    read := fun _ => some [], create := fun _ _ => none,
    createFolderOk := fun _ => true, modifyOk := fun _ => true,
    deleteOk := fun _ => true }

def fOther : TFile := ⟨"other/2026-01-10.md".data, "2026-01-10.md".data⟩

/-- A vault in which the new directory `other` exists and holds one valid
daily note. -/
def vaultD : Vault :=
  { lookup := fun p =>
      if p = ("other".data) then
        some (AbstractEntry.folder [FolderEntry.file fOther])
      else none,
    read := fun _ => some [], create := fun _ _ => none,
    createFolderOk := fun _ => true, modifyOk := fun _ => true,
    deleteOk := fun _ => true }


/-- A nonempty cache whose last scan is long past, in a vault without the
configured directory. -/
def staleState : ManagerState :=
  { cachedFileList := [(("2026-01-10".data), f10)], lastScanTime := 0,
    dailyNotesPath := "daily-notes".data }

/-- Sortedness with respect to a JS comparator. -/
def sortedC (c : List Char → List Char → Int) (l : List (List Char)) : Prop :=
  List.Chain' (fun a b => c a b ≤ 0) l


/-- The parsed-date rank of a date string (0 when unparseable); "newest
first" for valid date strings is descending rank. -/
def rankOfStr (s : List Char) : Nat :=
  match parseDateString s with
  | some d => dateRank d
  | none => 0


/-- Arguments under which an operation only ever inserts validated keys:
`create`/`save`/`refresh` take a date string passing validation, and the
clock date of `getOrCreateToday` is a real calendar date in [1900, 2100]
(which `new Date()` always is). -/
def opArgsValid : MOp → Prop
  | MOp.scan _ _ _ => True
  | MOp.create _ ds _ => validKey ds = true
  | MOp.save _ ds _ => validKey ds = true
  | MOp.del _ _ => True
  | MOp.getOrCreateToday _ _ today =>
      1900 ≤ today.year ∧ today.year ≤ 2100 ∧ today.month ≤ 11 ∧ 1 ≤ today.day ∧
        today.day ≤ daysInMonth0 today.year today.month
  | MOp.refresh _ ds => validKey ds = true

instance (op : MOp) : Decidable (opArgsValid op) := by
  cases op <;> simp only [opArgsValid] <;> infer_instance

/-- A vault with an existing (empty) notes directory in which file creation
always succeeds. -/
def vaultC : Vault :=
  { lookup := fun p =>
      if p = ("daily-notes".data) then some (AbstractEntry.folder []) else none,
    read := fun _ => none, create := fun p _ => some ⟨p, []⟩,
    createFolderOk := fun _ => true, modifyOk := fun _ => true,
    deleteOk := fun _ => true }


/-! ### Lemmas on digits and decimal rendering -/

theorem digitChar_isDigit (k : Nat) (h : k ≤ 9) : isDigitChar (digitChar k) = true := by
  interval_cases k <;> decide

theorem digitVal_digitChar (k : Nat) (h : k ≤ 9) : digitVal (digitChar k) = k := by
  interval_cases k <;> decide

theorem digitChar_ne_dash (k : Nat) (h : k ≤ 9) : digitChar k ≠ '-' := by
  interval_cases k <;> decide

theorem digitChar_ne_dot (k : Nat) (h : k ≤ 9) : digitChar k ≠ '.' := by
  interval_cases k <;> decide

theorem natToDigitsAux_zero (fuel : Nat) (acc : List Char) :
    natToDigitsAux fuel 0 acc = acc := by
  cases fuel <;> simp [natToDigitsAux]

theorem natToDigitsAux1 (fuel n : Nat) (acc : List Char) (hf : 1 ≤ fuel)
    (h1 : 1 ≤ n) (h9 : n ≤ 9) : natToDigitsAux fuel n acc = digitChar n :: acc := by
  cases fuel with
  | zero => omega
  | succ f =>
    simp only [natToDigitsAux]
    rw [if_neg (by omega)]
    have hd : n / 10 = 0 := by omega
    have hm : n % 10 = n := by omega
    rw [hd, hm, natToDigitsAux_zero]

theorem natToDigitsAux2 (fuel n : Nat) (acc : List Char) (hf : 2 ≤ fuel)
    (h1 : 10 ≤ n) (h9 : n ≤ 99) :
    natToDigitsAux fuel n acc = digitChar (n / 10) :: digitChar (n % 10) :: acc := by
  cases fuel with
  | zero => omega
  | succ f =>
    simp only [natToDigitsAux]
    rw [if_neg (by omega)]
    exact natToDigitsAux1 f (n / 10) _ (by omega) (by omega) (by omega)

theorem natToDigitsAux3 (fuel n : Nat) (acc : List Char) (hf : 3 ≤ fuel)
    (h1 : 100 ≤ n) (h9 : n ≤ 999) :
    natToDigitsAux fuel n acc
      = digitChar (n / 100) :: digitChar (n / 10 % 10) :: digitChar (n % 10) :: acc := by
  cases fuel with
  | zero => omega
  | succ f =>
    simp only [natToDigitsAux]
    rw [if_neg (by omega)]
    rw [natToDigitsAux2 f (n / 10) _ (by omega) (by omega) (by omega)]
    have hd : n / 10 / 10 = n / 100 := by omega
    rw [hd]

theorem natToDigitsAux4 (fuel n : Nat) (acc : List Char) (hf : 4 ≤ fuel)
    (h1 : 1000 ≤ n) (h9 : n ≤ 9999) :
    natToDigitsAux fuel n acc
      = digitChar (n / 1000) :: digitChar (n / 100 % 10) :: digitChar (n / 10 % 10)
          :: digitChar (n % 10) :: acc := by
  cases fuel with
  | zero => omega
  | succ f =>
    simp only [natToDigitsAux]
    rw [if_neg (by omega)]
    rw [natToDigitsAux3 f (n / 10) _ (by omega) (by omega) (by omega)]
    have hd1 : n / 10 / 100 = n / 1000 := by omega
    have hd2 : n / 10 / 10 = n / 100 := by omega
    rw [hd1, hd2]

theorem natToDigits4 (n : Nat) (h1 : 1000 ≤ n) (h2 : n ≤ 9999) :
    natToDigits n = [digitChar (n / 1000), digitChar (n / 100 % 10),
      digitChar (n / 10 % 10), digitChar (n % 10)] := by
  unfold natToDigits
  rw [if_neg (by omega)]
  exact natToDigitsAux4 n n [] (by omega) h1 h2

theorem pad2_natToDigits (n : Nat) (h1 : 1 ≤ n) (h2 : n ≤ 99) :
    padStart2 (natToDigits n) = [digitChar (n / 10), digitChar (n % 10)] := by
  by_cases h : n ≤ 9
  · have hn : natToDigits n = [digitChar n] := by
      unfold natToDigits
      rw [if_neg (by omega)]
      exact natToDigitsAux1 n n [] (by omega) h1 h
    have hd : n / 10 = 0 := by omega
    have hm : n % 10 = n := by omega
    rw [hn, hd, hm]
    simp [padStart2, digitChar]
  · have hn : natToDigits n = [digitChar (n / 10), digitChar (n % 10)] := by
      unfold natToDigits
      rw [if_neg (by omega)]
      exact natToDigitsAux2 n n [] (by omega) (by omega) h2
    rw [hn]
    simp [padStart2]

/-! ### Lemmas on the JS Date model -/

theorem daysInMonth0_le (y m0 : Nat) : daysInMonth0 y m0 ≤ 31 := by
  unfold daysInMonth0; split_ifs <;> omega

theorem daysInMonth0_pos (y m0 : Nat) : 1 ≤ daysInMonth0 y m0 := by
  unfold daysInMonth0; split_ifs <;> omega

theorem normDays_eq_self (fuel y m0 d : Nat) (h : d ≤ daysInMonth0 y m0) :
    normDays fuel y m0 d = ⟨y, m0, d⟩ := by
  cases fuel with
  | zero => rfl
  | succ f =>
    simp only [normDays]
    rw [if_neg (by omega)]

theorem normDays_day_le (fuel : Nat) : ∀ y m0 d, (normDays fuel y m0 d).day ≤ d := by
  induction fuel with
  | zero => intro y m0 d; simp [normDays]
  | succ f ih =>
    intro y m0 d
    simp only [normDays]
    split_ifs with h1 h2
    · exact le_trans (ih _ _ _) (Nat.sub_le d _)
    · exact le_trans (ih _ _ _) (Nat.sub_le d _)
    · simp

theorem normDays_day_lt (f y m0 d : Nat) (h : daysInMonth0 y m0 < d) :
    (normDays (f + 1) y m0 d).day < d := by
  have hpos := daysInMonth0_pos y m0
  simp only [normDays]
  rw [if_pos (by omega)]
  split_ifs
  · exact lt_of_le_of_lt (normDays_day_le f _ _ _) (by omega)
  · exact lt_of_le_of_lt (normDays_day_le f _ _ _) (by omega)

theorem mkJSDate_eq_self (y m0 d : Nat) (hm : m0 ≤ 11) (hd : d ≤ daysInMonth0 y m0) :
    mkJSDate y m0 d = ⟨y, m0, d⟩ := by
  unfold mkJSDate
  have h1 : m0 / 12 = 0 := by omega
  have h2 : m0 % 12 = m0 := by omega
  rw [h1, h2, Nat.add_zero]
  exact normDays_eq_self d y m0 d hd

/-- From a successful day round-trip through the `Date` constructor, the day
fits in the month: `new Date(y, m0, d)` keeps `d` only when `d` does not
overflow the month. -/
theorem day_le_daysInMonth_of_mkJSDate (y m0 d : Nat) (hm : m0 ≤ 11) (hd1 : 1 ≤ d)
    (h : (mkJSDate y m0 d).day = d) : d ≤ daysInMonth0 y m0 := by
  by_contra hlt
  have h1 : m0 / 12 = 0 := by omega
  have h2 : m0 % 12 = m0 := by omega
  unfold mkJSDate at h
  rw [h1, h2, Nat.add_zero] at h
  obtain ⟨f, rfl⟩ : ∃ f, d = f + 1 := ⟨d - 1, by omega⟩
  have := normDays_day_lt f y m0 (f + 1) (by omega)
  omega

/-! ### Lemmas on the string primitives -/

theorem isDigitChar_ne_dot {c : Char} (h : isDigitChar c = true) : c ≠ '.' := by
  intro he
  subst he
  exact absurd h (by decide)

theorem isDigitChar_ne_dash {c : Char} (h : isDigitChar c = true) : c ≠ '-' := by
  intro he
  subst he
  exact absurd h (by decide)

/-- Stripping the `.md` suffix with `replace` removes exactly the suffix when
the stem contains no dot (so no earlier occurrence of the pattern exists). -/
theorem replaceFirst_strip (xs : List Char) (h : ∀ c ∈ xs, c ≠ '.') :
    replaceFirst mdExt [] (xs ++ mdExt) = xs := by
  induction xs with
  | nil => decide
  | cons c cs ih =>
    simp only [List.cons_append, replaceFirst]
    have hc : c ≠ '.' := h c (by simp)
    have hdrop : dropPat mdExt (c :: (cs ++ mdExt)) = none := by
      show (if '.' = c then dropPat ('m' :: ['d']) (cs ++ mdExt) else none) = none
      rw [if_neg (fun he => hc he.symm)]
    simp only [List.append_eq] at *
    rw [hdrop]
    exact congrArg (c :: ·) (ih (fun x hx => h x (by simp [hx])))

theorem splitOnChar_no_sep (sep : Char) (xs : List Char) (h : ∀ c ∈ xs, c ≠ sep) :
    splitOnChar sep xs = [xs] := by
  induction xs with
  | nil => rfl
  | cons c cs ih =>
    simp only [splitOnChar]
    rw [if_neg (h c (by simp)), ih (fun x hx => h x (by simp [hx]))]

theorem splitOnChar_sep_append (sep : Char) (xs rest : List Char)
    (h : ∀ c ∈ xs, c ≠ sep) :
    splitOnChar sep (xs ++ sep :: rest) = xs :: splitOnChar sep rest := by
  induction xs with
  | nil => simp [splitOnChar]
  | cons c cs ih =>
    simp only [List.cons_append, splitOnChar, List.append_eq]
    rw [if_neg (h c (by simp)), ih (fun x hx => h x (by simp [hx]))]

theorem jsParseInt_digits2 (a b : Nat) (ha : a ≤ 9) (hb : b ≤ 9) :
    jsParseInt [digitChar a, digitChar b] = some (10 * a + b) := by
  have hv : digitsVal [digitChar a, digitChar b] = 10 * a + b := by
    simp [digitsVal, digitVal_digitChar a ha, digitVal_digitChar b hb]
    omega
  simp [jsParseInt, List.takeWhile_cons, digitChar_isDigit a ha, digitChar_isDigit b hb, hv]

theorem jsParseInt_digits4 (a b c e : Nat) (ha : a ≤ 9) (hb : b ≤ 9) (hc : c ≤ 9)
    (he : e ≤ 9) :
    jsParseInt [digitChar a, digitChar b, digitChar c, digitChar e]
      = some (((a * 10 + b) * 10 + c) * 10 + e) := by
  have hv : digitsVal [digitChar a, digitChar b, digitChar c, digitChar e]
      = ((a * 10 + b) * 10 + c) * 10 + e := by
    simp [digitsVal, digitVal_digitChar a ha, digitVal_digitChar b hb,
      digitVal_digitChar c hc, digitVal_digitChar e he]
  simp [jsParseInt, List.takeWhile_cons, digitChar_isDigit a ha, digitChar_isDigit b hb,
    digitChar_isDigit c hc, digitChar_isDigit e he, hv]

/-! ### The filename round trip -/

/-- The canonical filename components of a valid in-range date. -/
theorem formatDateToFileName_eq (y m0 d : Nat) (hy1 : 1900 ≤ y) (hy2 : y ≤ 2100)
    (hm : m0 ≤ 11) (hd1 : 1 ≤ d) (hd2 : d ≤ 31) :
    formatDateToFileName ⟨y, m0, d⟩
      = [digitChar (y / 1000), digitChar (y / 100 % 10), digitChar (y / 10 % 10),
         digitChar (y % 10)] ++ '-' ::
        ([digitChar ((m0 + 1) / 10), digitChar ((m0 + 1) % 10)] ++ '-' ::
         [digitChar (d / 10), digitChar (d % 10)]) := by
  unfold formatDateToFileName
  rw [natToDigits4 y (by omega) (by omega),
    pad2_natToDigits (m0 + 1) (by omega) (by omega),
    pad2_natToDigits d (by omega) (by omega)]
  simp [List.cons_append, List.append_assoc]

theorem parse_generateFilename (y m0 d : Nat) (hy1 : 1900 ≤ y) (hy2 : y ≤ 2100)
    (hm : m0 ≤ 11) (hd1 : 1 ≤ d) (hd2 : d ≤ daysInMonth0 y m0) :
    parseDateFromFilename (generateFilename ⟨y, m0, d⟩) = some ⟨y, m0, d⟩ := by
  have hd31 : d ≤ 31 := le_trans hd2 (daysInMonth0_le y m0)
  have hy4 : y / 1000 ≤ 9 := by omega
  have hy3 : y / 100 % 10 ≤ 9 := by omega
  have hy2' : y / 10 % 10 ≤ 9 := by omega
  have hy1' : y % 10 ≤ 9 := by omega
  have hm1 : (m0 + 1) / 10 ≤ 9 := by omega
  have hm2 : (m0 + 1) % 10 ≤ 9 := by omega
  have hda : d / 10 ≤ 9 := by omega
  have hdb : d % 10 ≤ 9 := by omega
  unfold generateFilename
  rw [formatDateToFileName_eq y m0 d hy1 hy2 hm hd1 hd31]
  -- no character of the stem is a dot, so the extension strips cleanly
  have hstem : ∀ c ∈ ([digitChar (y / 1000), digitChar (y / 100 % 10),
      digitChar (y / 10 % 10), digitChar (y % 10)] ++ '-' ::
      ([digitChar ((m0 + 1) / 10), digitChar ((m0 + 1) % 10)] ++ '-' ::
       [digitChar (d / 10), digitChar (d % 10)])), c ≠ '.' := by
    refine List.forall_mem_append.mpr ⟨?_, List.forall_mem_cons.mpr ⟨by decide, ?_⟩⟩
    · intro c hc
      simp only [List.mem_cons, List.not_mem_nil, or_false] at hc
      rcases hc with rfl | rfl | rfl | rfl <;> exact digitChar_ne_dot _ (by assumption)
    · refine List.forall_mem_append.mpr ⟨?_, List.forall_mem_cons.mpr ⟨by decide, ?_⟩⟩ <;>
      · intro c hc
        simp only [List.mem_cons, List.not_mem_nil, or_false] at hc
        rcases hc with rfl | rfl <;> exact digitChar_ne_dot _ (by assumption)
  unfold parseDateFromFilename
  rw [replaceFirst_strip _ hstem]
  have hregex : dailyNoteRegexTest
      (([digitChar (y / 1000), digitChar (y / 100 % 10), digitChar (y / 10 % 10),
        digitChar (y % 10)] ++ '-' ::
        ([digitChar ((m0 + 1) / 10), digitChar ((m0 + 1) % 10)] ++ '-' ::
         [digitChar (d / 10), digitChar (d % 10)])) ++ mdExt) = true := by
    show dailyNoteRegexTest [digitChar (y / 1000), digitChar (y / 100 % 10),
      digitChar (y / 10 % 10), digitChar (y % 10), '-', digitChar ((m0 + 1) / 10),
      digitChar ((m0 + 1) % 10), '-', digitChar (d / 10), digitChar (d % 10),
      '.', 'm', 'd'] = true
    simp only [dailyNoteRegexTest, digitChar_isDigit _ hy4, digitChar_isDigit _ hy3,
      digitChar_isDigit _ hy2', digitChar_isDigit _ hy1', digitChar_isDigit _ hm1,
      digitChar_isDigit _ hm2, digitChar_isDigit _ hda, digitChar_isDigit _ hdb]
    decide
  rw [hregex]
  simp only [Bool.not_true, if_neg (by simp : ¬ (false = true))]
  rw [splitOnChar_sep_append '-' _ _
      (by intro c hc; simp only [List.mem_cons, List.not_mem_nil, or_false] at hc
          rcases hc with rfl | rfl | rfl | rfl <;>
            exact digitChar_ne_dash _ (by assumption))]
  rw [splitOnChar_sep_append '-' _ _
      (by intro c hc; simp only [List.mem_cons, List.not_mem_nil, or_false] at hc
          rcases hc with rfl | rfl <;> exact digitChar_ne_dash _ (by assumption))]
  rw [splitOnChar_no_sep '-' _
      (by intro c hc; simp only [List.mem_cons, List.not_mem_nil, or_false] at hc
          rcases hc with rfl | rfl <;> exact digitChar_ne_dash _ (by assumption))]
  simp only [jsParseInt_digits4 _ _ _ _ hy4 hy3 hy2' hy1',
    jsParseInt_digits2 _ _ hm1 hm2, jsParseInt_digits2 _ _ hda hdb]
  have hyv : ((y / 1000 * 10 + y / 100 % 10) * 10 + y / 10 % 10) * 10 + y % 10 = y := by
    omega
  have hmv : 10 * ((m0 + 1) / 10) + (m0 + 1) % 10 = m0 + 1 := by omega
  have hdv : 10 * (d / 10) + d % 10 = d := by omega
  rw [hyv, hmv, hdv]
  rw [if_neg (by omega)]
  rw [if_neg (by omega)]
  rw [if_neg (by omega)]
  have hto : ((m0 + 1 : Nat) - 1 : Int).toNat = m0 := by omega
  rw [hto, mkJSDate_eq_self y m0 d hm hd2]
  rw [if_pos]
  exact ⟨rfl, by show (m0 : Int) = ((m0 + 1 : Nat) : Int) - 1; omega, rfl⟩

/-- Soundness of the parser: a successful parse forces the regex to match,
the year range, and a calendar-valid month/day triple. -/
theorem parse_sound (s : List Char) (y m0 d : Nat)
    (h : parseDateFromFilename s = some ⟨y, m0, d⟩) :
    dailyNoteRegexTest s = true ∧ 1900 ≤ y ∧ y ≤ 2100 ∧ m0 ≤ 11 ∧ 1 ≤ d ∧
      d ≤ daysInMonth0 y m0 := by
  by_cases hr : dailyNoteRegexTest s = true
  · refine ⟨hr, ?_⟩
    unfold parseDateFromFilename at h
    rw [hr] at h
    simp only [Bool.not_true] at h
    rw [if_neg (by simp)] at h
    rcases hsp : splitOnChar '-' (replaceFirst mdExt [] s) with _ | ⟨p0, _ | ⟨p1, _ | ⟨p2, _ | ⟨p3, t⟩⟩⟩⟩ <;>
      rw [hsp] at h <;> try simp at h
    rcases hy : jsParseInt p0 with _ | yn <;> rw [hy] at h <;> try simp at h
    rcases hmo : jsParseInt p1 with _ | mn <;> rw [hmo] at h <;> try simp at h
    rcases hdn : jsParseInt p2 with _ | dn <;> rw [hdn] at h <;> try simp at h
    obtain ⟨⟨hy1, hy2⟩, ⟨hm0, hm12⟩, ⟨hd0, hd31⟩, ⟨hYr, hMn, hDy⟩, hEq⟩ := h
    have hyy : y = yn := by rw [hEq] at hYr; exact hYr
    have hmm : (m0 : Int) = (mn : Int) - 1 := by rw [hEq] at hMn; exact hMn
    have hdd : d = dn := by rw [hEq] at hDy; exact hDy
    have hle := day_le_daysInMonth_of_mkJSDate yn (mn - 1) dn (by omega) (by omega) hDy
    have hm0eq : mn - 1 = m0 := by omega
    rw [hm0eq] at hle
    exact ⟨by omega, by omega, by omega, by omega, by rw [hyy, hdd]; exact hle⟩
  · exfalso
    have hr' : dailyNoteRegexTest s = false := by
      revert hr; cases dailyNoteRegexTest s <;> simp
    unfold parseDateFromFilename at h
    rw [hr'] at h
    simp at h

/-- Shape extraction from the filename regex: a matching string is exactly a
digits-dash-digits-dash-digits stem followed by `.md`. -/
theorem regex_shape (s : List Char) (h : dailyNoteRegexTest s = true) :
    ∃ a b c d e f g i, s = [a, b, c, d, '-', e, f, '-', g, i] ++ mdExt ∧
      isDigitChar a = true ∧ isDigitChar b = true ∧ isDigitChar c = true ∧
      isDigitChar d = true ∧ isDigitChar e = true ∧ isDigitChar f = true ∧
      isDigitChar g = true ∧ isDigitChar i = true := by
  rcases s with _ | ⟨c1, s⟩; · simp [dailyNoteRegexTest] at h
  rcases s with _ | ⟨c2, s⟩; · simp [dailyNoteRegexTest] at h
  rcases s with _ | ⟨c3, s⟩; · simp [dailyNoteRegexTest] at h
  rcases s with _ | ⟨c4, s⟩; · simp [dailyNoteRegexTest] at h
  rcases s with _ | ⟨c5, s⟩; · simp [dailyNoteRegexTest] at h
  rcases s with _ | ⟨c6, s⟩; · simp [dailyNoteRegexTest] at h
  rcases s with _ | ⟨c7, s⟩; · simp [dailyNoteRegexTest] at h
  rcases s with _ | ⟨c8, s⟩; · simp [dailyNoteRegexTest] at h
  rcases s with _ | ⟨c9, s⟩; · simp [dailyNoteRegexTest] at h
  rcases s with _ | ⟨c10, s⟩; · simp [dailyNoteRegexTest] at h
  rcases s with _ | ⟨c11, s⟩; · simp [dailyNoteRegexTest] at h
  rcases s with _ | ⟨c12, s⟩; · simp [dailyNoteRegexTest] at h
  rcases s with _ | ⟨c13, s⟩; · simp [dailyNoteRegexTest] at h
  rcases s with _ | ⟨c14, s⟩
  · simp only [dailyNoteRegexTest, Bool.and_eq_true, decide_eq_true_eq] at h
    obtain ⟨⟨⟨⟨⟨⟨⟨⟨⟨⟨⟨⟨h1, h2⟩, h3⟩, h4⟩, h5⟩, h6⟩, h7⟩, h8⟩, h9⟩, h10⟩, h11⟩, h12⟩, h13⟩ := h
    subst h5 h8 h11 h12 h13
    exact ⟨c1, c2, c3, c4, c6, c7, c9, c10, rfl, h1, h2, h3, h4, h6, h7, h9, h10⟩
  · simp [dailyNoteRegexTest] at h

/-- On a regex-matching filename, stripping the first `.md` occurrence
removes exactly the trailing extension. -/
theorem replaceFirst_mdExt_of_regex (s : List Char) (h : dailyNoteRegexTest s = true) :
    replaceFirst mdExt [] s ++ mdExt = s := by
  obtain ⟨a, b, c, d, e, f, g, i, rfl, h1, h2, h3, h4, h5, h6, h7, h8⟩ := regex_shape s h
  rw [replaceFirst_strip _ ?_]
  intro x hx
  simp only [List.mem_cons, List.not_mem_nil, or_false] at hx
  rcases hx with rfl | rfl | rfl | rfl | rfl | rfl | rfl | rfl | rfl | rfl <;>
    first
      | exact isDigitChar_ne_dot (by assumption)
      | decide

/-- Every cache key produced by the scan filter passes date-string
validation. -/
theorem validKey_strip (name : List Char) (h : isValidDailyNoteFilename name = true) :
    validKey (replaceFirst mdExt [] name) = true := by
  unfold isValidDailyNoteFilename at h
  by_cases hr : dailyNoteRegexTest name = true
  · rw [hr] at h
    simp only [Bool.not_true] at h
    rw [if_neg (by simp)] at h
    unfold validKey parseDateString
    rw [replaceFirst_mdExt_of_regex name hr]
    exact h
  · have hr' : dailyNoteRegexTest name = false := by
      revert hr; cases dailyNoteRegexTest name <;> simp
    rw [hr'] at h
    simp at h

/-! ### Claim C4: filename round trip -/

/-- C4: for every valid calendar date (year in [1900, 2100], month index at
most 11, day between 1 and the month length), parsing the canonical filename
generated for it returns exactly the same year/month/day triple. -/
theorem claim_C4_roundtrip (y m0 d : Nat) (hy1 : 1900 ≤ y) (hy2 : y ≤ 2100)
    (hm : m0 ≤ 11) (hd1 : 1 ≤ d) (hd2 : d ≤ daysInMonth0 y m0) :
    parseDateFromFilename (generateFilename ⟨y, m0, d⟩) = some ⟨y, m0, d⟩ :=
  parse_generateFilename y m0 d hy1 hy2 hm hd1 hd2

theorem claim_C4_roundtrip_witness :
    1900 ≤ 2024 ∧ 2024 ≤ 2100 ∧ 1 ≤ 11 ∧ 1 ≤ 29 ∧ 29 ≤ daysInMonth0 2024 1 ∧
      parseDateFromFilename (generateFilename ⟨2024, 1, 29⟩) = some ⟨2024, 1, 29⟩ :=
  ⟨by decide, by decide, by decide, by decide, by decide,
    claim_C4_roundtrip 2024 1 29 (by decide) (by decide) (by decide) (by decide)
      (by decide)⟩

/-! ### Claim C5: parser accepts only canonical valid dates -/

/-- C5: a successful parse forces the string to match the zero-padded
`YYYY-MM-DD.md` pattern, the year to lie in [1900, 2100] and the triple to be
a real calendar date; the calendar-invalid strings 2026-02-30, 2026-13-01 and
2026-00-10 all fail to parse. -/
theorem claim_C5_parse_validation :
    (∀ s y m0 d, parseDateFromFilename s = some ⟨y, m0, d⟩ →
      dailyNoteRegexTest s = true ∧ 1900 ≤ y ∧ y ≤ 2100 ∧ m0 ≤ 11 ∧ 1 ≤ d ∧
        d ≤ daysInMonth0 y m0) ∧
    parseDateString ("2026-02-30".data) = none ∧
    parseDateString ("2026-13-01".data) = none ∧
    parseDateString ("2026-00-10".data) = none :=
  ⟨parse_sound, by decide, by decide, by decide⟩

theorem claim_C5_parse_validation_witness :
    dailyNoteRegexTest ("2026-01-15.md".data) = true ∧ 1900 ≤ 2026 ∧ 2026 ≤ 2100 ∧
      0 ≤ 11 ∧ 1 ≤ 15 ∧ 15 ≤ daysInMonth0 2026 0 :=
  claim_C5_parse_validation.1 ("2026-01-15.md".data) 2026 0 15 (by decide)

/-! ### Claim C10: readNote conflates absence with read failure -/

/-- C10: `readNote` returns `null` both when no handle is cached for the date
string and when the underlying read throws, so a read failure is
indistinguishable from an absent note at this interface. -/
theorem claim_C10_readNote (v : Vault) (st : ManagerState) (ds : List Char) :
    (mapGet st.cachedFileList ds = none → readNote v st ds = none) ∧
    (∀ f, mapGet st.cachedFileList ds = some f → v.read f = none →
      readNote v st ds = none) := by
  constructor
  · intro h
    unfold readNote
    rw [h]
  · intro f h hr
    unfold readNote
    rw [h]
    exact hr

theorem claim_C10_readNote_witness :
    readNote constVault stWith ("2026-01-15".data) = none :=
  (claim_C10_readNote constVault stWith ("2026-01-15".data)).2 f15 (by decide) (by decide)

/-! ### Claim C9: a failed deletion leaves the cache untouched -/

/-- C9: with a cached handle whose deletion throws, `deleteNote` reports
failure and does not modify the cache mapping. -/
theorem claim_C9_delete_failure (v : Vault) (st : ManagerState) (ds : List Char)
    (f : TFile) (hget : mapGet st.cachedFileList ds = some f)
    (hdel : v.deleteOk f = false) :
    (deleteNote v st ds).1.success = false ∧
      (deleteNote v st ds).2.1.cachedFileList = st.cachedFileList := by
  simp [deleteNote, hget, hdel]

theorem claim_C9_delete_failure_witness :
    (deleteNote constVault stWith ("2026-01-15".data)).1.success = false ∧
      (deleteNote constVault stWith ("2026-01-15".data)).2.1.cachedFileList
        = stWith.cachedFileList :=
  claim_C9_delete_failure constVault stWith ("2026-01-15".data) f15 (by decide) (by decide)

/-! ### Claim C6: saveNote create/recreate/overwrite -/

/-- C6: `saveNote` delegates to `createNote` when no handle is cached;
when the cached handle's target is gone from storage it first drops the stale
cache entry and then delegates to `createNote`; otherwise it modifies the
file in place and returns the same cached handle. -/
theorem claim_C6_saveNote (v : Vault) (st : ManagerState) (ds content : List Char) :
    (mapGet st.cachedFileList ds = none →
      saveNote v st ds content = createNote v st ds content) ∧
    (∀ f, mapGet st.cachedFileList ds = some f → v.lookup f.path = none →
      saveNote v st ds content =
        createNote v { st with cachedFileList := mapDelete st.cachedFileList ds }
          ds content) ∧
    (∀ f e, mapGet st.cachedFileList ds = some f → v.lookup f.path = some e →
      v.modifyOk f = true →
      saveNote v st ds content
        = ({ success := true, file := some f }, st, [Eff.modifiedFile f content])) := by
  refine ⟨fun h => ?_, fun f h hl => ?_, fun f e h hl hm => ?_⟩
  · simp [saveNote, h]
  · simp [saveNote, h, hl]
  · simp [saveNote, h, hl, hm]

/-! ### Claim C7: deleteNote and the cache-served noteExists -/

theorem mapGet_eq_none_iff (m : List (List Char × TFile)) (k : List Char) :
    mapGet m k = none ↔ k ∉ mapKeys m := by
  induction m with
  | nil => simp [mapGet, mapKeys]
  | cons p rest ih =>
    cases p with
    | mk k' v =>
      by_cases hk : k' = k
      · subst hk
        simp [mapGet, mapKeys]
      · simp [mapGet, mapKeys, hk, ih, Ne.symm hk]

theorem mapGet_mapDelete_self (m : List (List Char × TFile)) (k : List Char)
    (h : (mapKeys m).Nodup) : mapGet (mapDelete m k) k = none := by
  induction m with
  | nil => simp [mapDelete, mapGet]
  | cons p rest ih =>
    cases p with
    | mk k' v =>
      simp only [mapKeys, List.map_cons, List.nodup_cons] at h
      simp only [mapDelete]
      by_cases hk : k' = k
      · rw [if_pos hk]
        subst hk
        rw [mapGet_eq_none_iff]
        exact h.1
      · rw [if_neg hk]
        show mapGet ((k', v) :: mapDelete rest k) k = none
        simp only [mapGet, if_neg hk]
        exact ih h.2

/-- C7: `deleteNote` fails with "File not found" when no handle is cached;
with a cached handle and a successful storage delete it removes the cache
entry, so a `noteExists` that follows within the freshness window answers
`false` from the cache alone, performing no directory listing.  (The cache is
a JS `Map`, so its keys are assumed duplicate-free.) -/
theorem claim_C7_deleteNote (v v' : Vault) (st : ManagerState) (ds : List Char)
    (now' : Nat) (hnodup : (mapKeys st.cachedFileList).Nodup) :
    (mapGet st.cachedFileList ds = none →
      deleteNote v st ds
        = ({ success := false, error := some ("File not found".data) }, st, [])) ∧
    (∀ f, mapGet st.cachedFileList ds = some f → v.deleteOk f = true →
      (deleteNote v st ds).1.success = true ∧
      mapGet (deleteNote v st ds).2.1.cachedFileList ds = none ∧
      (deleteNote v st ds).2.1.lastScanTime = st.lastScanTime ∧
      (now' - st.lastScanTime < 5000 →
        noteExists v' (deleteNote v st ds).2.1 now' ds
          = (false, (deleteNote v st ds).2.1, []))) := by
  constructor
  · intro h
    simp [deleteNote, h]
  · intro f hget hdel
    have hstate : (deleteNote v st ds).2.1
        = { st with cachedFileList := mapDelete st.cachedFileList ds } := by
      simp [deleteNote, hget, hdel]
    have hnone : mapGet (mapDelete st.cachedFileList ds) ds = none :=
      mapGet_mapDelete_self st.cachedFileList ds hnodup
    refine ⟨by simp [deleteNote, hget, hdel], by rw [hstate]; exact hnone, by rw [hstate],
      fun hfresh => ?_⟩
    rw [hstate]
    unfold noteExists scanDirectory
    rw [if_pos (by simpa using hfresh)]
    have hmem : ds ∉ mapKeys (mapDelete st.cachedFileList ds) :=
      (mapGet_eq_none_iff _ _).mp hnone
    simp [hmem]

theorem claim_C7_deleteNote_witness :
    (deleteNote vaultB stWith ("2026-01-15".data)).1.success = true ∧
      mapGet (deleteNote vaultB stWith ("2026-01-15".data)).2.1.cachedFileList
        ("2026-01-15".data) = none ∧
      (deleteNote vaultB stWith ("2026-01-15".data)).2.1.lastScanTime
        = stWith.lastScanTime ∧
      (1200 - stWith.lastScanTime < 5000 →
        noteExists constVault (deleteNote vaultB stWith ("2026-01-15".data)).2.1 1200
          ("2026-01-15".data)
          = (false, (deleteNote vaultB stWith ("2026-01-15".data)).2.1, [])) :=
  (claim_C7_deleteNote vaultB constVault stWith ("2026-01-15".data) 1200
    (by decide)).2 f15 (by decide) (by decide)

theorem claim_C6_saveNote_witness :
    saveNote vaultB stWith ("2026-01-15".data) ("hello".data)
      = ({ success := true, file := some f15 }, stWith,
         [Eff.modifiedFile f15 ("hello".data)]) :=
  (claim_C6_saveNote vaultB stWith ("2026-01-15".data) ("hello".data)).2.2 f15
    (AbstractEntry.file f15) (by decide) (by decide) (by decide)

/-! ### Claim C1: pagination within the freshness window -/

/-- C1 (code-bug evidence): within the 5-second freshness window
`scanDirectory` serves the cached keys in insertion order without sorting, so
`loadNotes` with count 1 and cursor 2026-01-15 returns the record for
2026-01-10 — while the first entry of the cursor-restricted set in descending
order is 2026-01-15. -/
theorem claim_C1_loadNotes_freshWindow :
    ((loadNotes vaultR freshState 2000 ⟨2026, 0, 15⟩
        { count := 1, startDate := some ⟨2026, 0, 15⟩, append := false }).1.map
          DailyNote.dateString = ["2026-01-10".data]) ∧
    ((sortDateStringsDesc ((mapKeys freshState.cachedFileList).filter
        (fun ds => lexLe ds (formatDateToFileName ⟨2026, 0, 15⟩)))).take 1
      = ["2026-01-15".data]) :=
  ⟨by decide, by decide⟩

/-! ### Claim C8: settings change and the freshness timer -/

/-- C8 (code-bug evidence): `updateSettings` — the invalidation performed when
the configured directory changes — clears the cache but leaves the last-scan
timestamp; a following non-forced scan inside the freshness window therefore
returns the empty cleared cache without listing the new directory, although a
listing (as the forced scan shows) would have found 2026-01-10. -/
theorem claim_C8_updateSettings_freshness :
    (updateSettings freshState ("other".data)).cachedFileList = [] ∧
    (updateSettings freshState ("other".data)).lastScanTime = 1000 ∧
    scanDirectory vaultD (updateSettings freshState ("other".data)) 2000 false
      = ([], updateSettings freshState ("other".data), []) ∧
    (scanDirectory vaultD (updateSettings freshState ("other".data)) 2000 true).1
      = ["2026-01-10".data] :=
  ⟨by decide, by decide, by decide, by decide⟩

/-! ### Claim C2: scanDirectory -/

/-- C2 counterexample: inside the freshness window the cached key set is
returned in insertion order — for the cache holding 2026-01-10 before
2026-01-15 the result is not sorted newest-first; and a stale scan against a
missing directory returns the empty list while keeping the old cache and
timestamp instead of rebuilding them. -/
theorem claim_C2_counterexample :
    ((scanDirectory vaultR freshState 2000 false).1
        = ["2026-01-10".data, "2026-01-15".data]) ∧
    (sortDateStringsDesc ["2026-01-10".data, "2026-01-15".data]
        = ["2026-01-15".data, "2026-01-10".data]) ∧
    (scanDirectory constVault staleState 10000 false = ([], staleState, [])) ∧
    staleState.cachedFileList ≠ [] :=
  ⟨by decide, by decide, by decide, by decide⟩

/-! Sorting lemmas for the comparator sort. -/

theorem insertCmp_perm (c : List Char → List Char → Int) (x : List Char)
    (l : List (List Char)) : (insertCmp c x l).Perm (x :: l) := by
  induction l with
  | nil => exact List.Perm.refl _
  | cons y ys ih =>
    simp only [insertCmp]
    by_cases h : c x y ≤ 0
    · rw [if_pos h]
    · rw [if_neg h]
      exact (ih.cons y).trans (List.Perm.swap x y ys)

theorem sortByCmp_perm (c : List Char → List Char → Int) (l : List (List Char)) :
    (sortByCmp c l).Perm l := by
  induction l with
  | nil => exact List.Perm.refl _
  | cons x xs ih => exact (insertCmp_perm c x _).trans (ih.cons x)

theorem insertCmp_sorted (c : List Char → List Char → Int)
    (hc : ∀ a b, ¬ c a b ≤ 0 → c b a ≤ 0) (x : List Char) (l : List (List Char))
    (h : sortedC c l) : sortedC c (insertCmp c x l) := by
  induction l with
  | nil => simp [insertCmp, sortedC]
  | cons y ys ih =>
    simp only [insertCmp]
    by_cases hxy : c x y ≤ 0
    · rw [if_pos hxy]
      exact List.Chain'.cons hxy h
    · rw [if_neg hxy]
      have hins := ih h.tail
      cases ys with
      | nil =>
        simp only [insertCmp]
        exact List.Chain'.cons (hc x y hxy) (List.chain'_singleton x)
      | cons z zs =>
        simp only [insertCmp] at hins ⊢
        by_cases hxz : c x z ≤ 0
        · rw [if_pos hxz] at hins ⊢
          exact List.Chain'.cons (hc x y hxy) hins
        · rw [if_neg hxz] at hins ⊢
          exact List.Chain'.cons (List.chain'_cons.mp h).1 hins

theorem sortByCmp_sorted (c : List Char → List Char → Int)
    (hc : ∀ a b, ¬ c a b ≤ 0 → c b a ≤ 0) (l : List (List Char)) :
    sortedC c (sortByCmp c l) := by
  induction l with
  | nil => simp [sortByCmp, sortedC]
  | cons x xs ih => exact insertCmp_sorted c hc x _ ih

theorem descCmp_flip (a b : List Char) :
    ¬ dateStringsDescCmp a b ≤ 0 → dateStringsDescCmp b a ≤ 0 := by
  intro h
  unfold dateStringsDescCmp at h ⊢
  revert h
  cases parseDateString a <;> cases parseDateString b <;> intro h <;>
    simp_all [compareDates] <;> omega

theorem chain_rank_of_sorted (l : List (List Char))
    (hval : ∀ s ∈ l, validKey s = true) (h : sortedC dateStringsDescCmp l) :
    List.Chain' (fun a b => rankOfStr b ≤ rankOfStr a) l := by
  induction l with
  | nil => simp
  | cons x xs ih =>
    cases xs with
    | nil => simp
    | cons y ys =>
      have h1 := (List.chain'_cons.mp h).1
      have h2 := (List.chain'_cons.mp h).2
      refine List.Chain'.cons ?_ (ih (fun s hs => hval s (by simp [hs])) h2)
      have hx := hval x (by simp)
      have hy := hval y (by simp)
      unfold validKey at hx hy
      unfold dateStringsDescCmp at h1
      unfold rankOfStr
      cases hpx : parseDateString x with
      | none => rw [hpx] at hx; simp at hx
      | some dx =>
        cases hpy : parseDateString y with
        | none => rw [hpy] at hy; simp at hy
        | some dy =>
          rw [hpx, hpy] at h1
          simp only [compareDates] at h1
          show dateRank dy ≤ dateRank dx
          omega

/-! Cache-building lemmas. -/

/-- `Map.set` either updates a key in place or appends the new key. -/
theorem mapKeys_mapSet (m : List (List Char × TFile)) (k : List Char) (v : TFile) :
    mapKeys (mapSet m k v)
      = if k ∈ mapKeys m then mapKeys m else mapKeys m ++ [k] := by
  induction m with
  | nil => simp [mapSet, mapKeys]
  | cons p rest ih =>
    cases p with
    | mk k' v' =>
      by_cases hk : k' = k
      · subst hk
        simp only [mapSet, if_pos rfl]
        rw [if_pos (show k' ∈ mapKeys ((k', v') :: rest) from List.mem_cons_self _ _)]
        rfl
      · simp only [mapSet, if_neg hk]
        show k' :: mapKeys (mapSet rest k v) = _
        rw [ih]
        by_cases hmem : k ∈ mapKeys rest
        · rw [if_pos hmem,
            if_pos (show k ∈ mapKeys ((k', v') :: rest) from
              List.mem_cons_of_mem _ hmem)]
          rfl
        · rw [if_neg hmem, if_neg ?_]
          · rfl
          · show ¬ k ∈ mapKeys ((k', v') :: rest)
            intro hc
            rcases List.mem_cons.mp hc with h | h
            · exact hk h.symm
            · exact hmem h

theorem mem_mapKeys_mapSet (m : List (List Char × TFile)) (k : List Char) (v : TFile)
    (ds : List Char) : ds ∈ mapKeys (mapSet m k v) ↔ ds = k ∨ ds ∈ mapKeys m := by
  rw [mapKeys_mapSet]
  split_ifs with h
  · constructor
    · exact Or.inr
    · rintro (rfl | hm)
      exacts [h, hm]
  · simp [List.mem_append, or_comm]

theorem mapSet_forall (P : List Char × TFile → Prop) (m : List (List Char × TFile))
    (k : List Char) (v : TFile) (hm : ∀ p ∈ m, P p) (hkv : P (k, v)) :
    ∀ p ∈ mapSet m k v, P p := by
  induction m with
  | nil =>
    intro p hp
    have hps : p = (k, v) := List.mem_singleton.mp hp
    rw [hps]
    exact hkv
  | cons q rest ih =>
    cases q with
    | mk k' v' =>
      intro p hp
      by_cases hk : k' = k
      · have hp' : p ∈ (k', v) :: rest := by
          simp only [mapSet, if_pos hk] at hp
          exact hp
        rcases List.mem_cons.mp hp' with heq | hmem
        · subst hk
          rw [heq]
          exact hkv
        · exact hm p (List.mem_cons_of_mem _ hmem)
      · have hp' : p ∈ (k', v') :: mapSet rest k v := by
          simp only [mapSet, if_neg hk] at hp
          exact hp
        rcases List.mem_cons.mp hp' with heq | hmem
        · rw [heq]
          exact hm (k', v') (List.mem_cons_self _ _)
        · exact ih (fun q hq => hm q (List.mem_cons_of_mem _ hq)) p hmem

theorem mapDelete_subset (m : List (List Char × TFile)) (k : List Char) :
    ∀ p ∈ mapDelete m k, p ∈ m := by
  induction m with
  | nil => simp [mapDelete]
  | cons q rest ih =>
    cases q with
    | mk k' v' =>
      intro p hp
      by_cases hk : k' = k
      · simp only [mapDelete, if_pos hk] at hp
        exact List.mem_cons_of_mem _ hp
      · simp only [mapDelete, if_neg hk, List.mem_cons] at hp
        rcases hp with rfl | hp
        · exact List.mem_cons_self _ _
        · exact List.mem_cons_of_mem _ (ih p hp)

/-- Membership in the keys of the scan fold: exactly the stripped names of
the valid `.md` child files, plus whatever the accumulator held. -/
theorem foldl_scanStep_mem (children : List FolderEntry) :
    ∀ acc (ds : List Char), ds ∈ mapKeys (children.foldl scanStep acc) ↔
      ds ∈ mapKeys acc ∨ ∃ f, FolderEntry.file f ∈ children ∧
        extensionOf f.name = ('m' :: ['d']) ∧ isValidDailyNoteFilename f.name = true ∧
        replaceFirst mdExt [] f.name = ds := by
  induction children with
  | nil => simp
  | cons child rest ih =>
    intro acc ds
    simp only [List.foldl_cons]
    rw [ih]
    cases child with
    | subfolder p =>
      simp only [scanStep, List.mem_cons]
      constructor
      · rintro (h | ⟨f, hf, hrest⟩)
        · exact Or.inl h
        · exact Or.inr ⟨f, Or.inr hf, hrest⟩
      · rintro (h | ⟨f, (hf | hf), hrest⟩)
        · exact Or.inl h
        · exact absurd hf (by simp)
        · exact Or.inr ⟨f, hf, hrest⟩
    | file f =>
      simp only [scanStep]
      split_ifs with hcond
      · rw [mem_mapKeys_mapSet]
        constructor
        · rintro ((rfl | h) | ⟨f', hf', hrest⟩)
          · exact Or.inr ⟨f, by simp, hcond.1, hcond.2, rfl⟩
          · exact Or.inl h
          · exact Or.inr ⟨f', by simp [hf'], hrest⟩
        · rintro (h | ⟨f', hf', he', hv', hs'⟩)
          · exact Or.inl (Or.inr h)
          · rcases List.mem_cons.mp hf' with heq | hf'
            · cases FolderEntry.file.inj heq
              exact Or.inl (Or.inl hs'.symm)
            · exact Or.inr ⟨f', hf', he', hv', hs'⟩
      · constructor
        · rintro (h | ⟨f', hf', hrest⟩)
          · exact Or.inl h
          · exact Or.inr ⟨f', by simp [hf'], hrest⟩
        · rintro (h | ⟨f', hf', he', hv', hs'⟩)
          · exact Or.inl h
          · rcases List.mem_cons.mp hf' with heq | hf'
            · cases FolderEntry.file.inj heq
              exact absurd ⟨he', hv'⟩ hcond
            · exact Or.inr ⟨f', hf', he', hv', hs'⟩

/-- Every key inserted by the scan fold passes date-string validation. -/
theorem foldl_scanStep_valid (children : List FolderEntry) :
    ∀ acc, (∀ p ∈ acc, validKey p.1 = true) →
      ∀ p ∈ children.foldl scanStep acc, validKey p.1 = true := by
  induction children with
  | nil => intro acc hacc; simpa using hacc
  | cons child rest ih =>
    intro acc hacc
    simp only [List.foldl_cons]
    refine ih _ ?_
    cases child with
    | subfolder p => exact hacc
    | file f =>
      simp only [scanStep]
      split_ifs with hcond
      · exact mapSet_forall _ _ _ _ hacc (validKey_strip f.name hcond.2)
      · exact hacc

theorem buildCache_valid (children : List FolderEntry) :
    ∀ p ∈ buildCache children, validKey p.1 = true :=
  foldl_scanStep_valid children [] (by simp)

/-- C2 (amended): a non-forced scan inside the freshness window returns the
cached keys in insertion order, touching nothing; a stale scan against an
existing directory rebuilds the cache to hold exactly the date strings of the
child files passing daily-note filename validation, stamps the scan time, and
returns those keys sorted newest-first (a permutation of the rebuilt key set,
descending in parsed-date rank); a stale scan against a missing directory (or
a file at the directory path) returns the empty list and leaves the state
unchanged. -/
theorem claim_C2_scanDirectory (v : Vault) (st : ManagerState) (now : Nat) :
    (now - st.lastScanTime < 5000 →
      scanDirectory v st now false = (mapKeys st.cachedFileList, st, [])) ∧
    (∀ children, ¬ now - st.lastScanTime < 5000 →
      v.lookup st.dailyNotesPath = some (AbstractEntry.folder children) →
      (∀ ds, ds ∈ mapKeys (scanDirectory v st now false).2.1.cachedFileList ↔
        ∃ f, FolderEntry.file f ∈ children ∧
          extensionOf f.name = ('m' :: ['d']) ∧
          isValidDailyNoteFilename f.name = true ∧
          replaceFirst mdExt [] f.name = ds) ∧
      (scanDirectory v st now false).2.1.lastScanTime = now ∧
      ((scanDirectory v st now false).1).Perm
        (mapKeys (scanDirectory v st now false).2.1.cachedFileList) ∧
      List.Chain' (fun a b => rankOfStr b ≤ rankOfStr a)
        (scanDirectory v st now false).1 ∧
      (scanDirectory v st now false).2.2 = [Eff.listedDir st.dailyNotesPath]) ∧
    (¬ now - st.lastScanTime < 5000 →
      (v.lookup st.dailyNotesPath = none ∨
        ∃ f, v.lookup st.dailyNotesPath = some (AbstractEntry.file f)) →
      scanDirectory v st now false = ([], st, [])) := by
  refine ⟨fun hfresh => ?_, fun children hstale hdir => ?_, fun hstale hdir => ?_⟩
  · unfold scanDirectory
    rw [if_pos (by simpa using hfresh)]
  · have hbranch : scanDirectory v st now false
        = (sortDateStringsDesc (mapKeys (buildCache children)),
           { st with cachedFileList := buildCache children, lastScanTime := now },
           [Eff.listedDir st.dailyNotesPath]) := by
      unfold scanDirectory
      rw [if_neg (by simpa using hstale)]
      rw [hdir]
    rw [hbranch]
    have hperm : (sortDateStringsDesc (mapKeys (buildCache children))).Perm
        (mapKeys (buildCache children)) := sortByCmp_perm _ _
    refine ⟨?_, rfl, hperm, ?_, rfl⟩
    · intro ds
      have := foldl_scanStep_mem children [] ds
      simpa [buildCache, mapKeys] using this
    · refine chain_rank_of_sorted _ ?_ (sortByCmp_sorted _ descCmp_flip _)
      intro s hs
      have hmem : s ∈ mapKeys (buildCache children) := hperm.mem_iff.mp hs
      obtain ⟨p, hp, hps⟩ := List.mem_map.mp hmem
      exact hps ▸ buildCache_valid children p hp
  · unfold scanDirectory
    rw [if_neg (by simpa using hstale)]
    rcases hdir with h | ⟨f, h⟩ <;> rw [h]

theorem claim_C2_scanDirectory_witness :
    scanDirectory vaultR freshState 2000 false
      = (mapKeys freshState.cachedFileList, freshState, []) :=
  (claim_C2_scanDirectory vaultR freshState 2000).1 (by decide)

/-! ### Claim C3: the cache-key validation invariant -/

theorem validKey_format (t : JSDate) (h1 : 1900 ≤ t.year) (h2 : t.year ≤ 2100)
    (h3 : t.month ≤ 11) (h4 : 1 ≤ t.day) (h5 : t.day ≤ daysInMonth0 t.year t.month) :
    validKey (formatDateToFileName t) = true := by
  have hp := parse_generateFilename t.year t.month t.day h1 h2 h3 h4 h5
  have ht : (⟨t.year, t.month, t.day⟩ : JSDate) = t := rfl
  rw [ht] at hp
  unfold generateFilename at hp
  unfold validKey parseDateString
  rw [hp]
  rfl

theorem scanDirectory_preserves (v : Vault) (st : ManagerState) (now : Nat)
    (force : Bool) (hst : cacheKeysValid st) :
    cacheKeysValid (scanDirectory v st now force).2.1 := by
  unfold scanDirectory
  split_ifs with h
  · exact hst
  · cases hl : v.lookup st.dailyNotesPath with
    | none => simp only [hl]; exact hst
    | some e =>
      cases e with
      | file f => simp only [hl]; exact hst
      | folder children =>
        simp only [hl]
        intro p hp
        exact buildCache_valid children p hp

theorem createNote_preserves (v : Vault) (st : ManagerState) (ds content : List Char)
    (hst : cacheKeysValid st) (hds : validKey ds = true) :
    cacheKeysValid (createNote v st ds content).2.1 := by
  unfold createNote
  dsimp only
  split_ifs with h
  · exact hst
  · cases hl : v.lookup (getNotePath st ds) with
    | some e => simp only [hl]; exact hst
    | none =>
      cases hc : v.create (getNotePath st ds) content with
      | none => simp only [hl, hc]; exact hst
      | some file =>
        simp only [hl, hc]
        intro p hp
        exact mapSet_forall (fun p => validKey p.1 = true) _ _ _ hst hds p hp

theorem saveNote_preserves (v : Vault) (st : ManagerState) (ds content : List Char)
    (hst : cacheKeysValid st) (hds : validKey ds = true) :
    cacheKeysValid (saveNote v st ds content).2.1 := by
  unfold saveNote
  cases hg : mapGet st.cachedFileList ds with
  | none =>
    simp only [hg]
    exact createNote_preserves v st ds content hst hds
  | some f =>
    cases hl : v.lookup f.path with
    | none =>
      simp only [hg, hl]
      exact createNote_preserves v _ ds content
        (fun p hp => hst p (mapDelete_subset _ _ p hp)) hds
    | some e =>
      simp only [hg, hl]
      split_ifs <;> exact hst

theorem deleteNote_preserves (v : Vault) (st : ManagerState) (ds : List Char)
    (hst : cacheKeysValid st) : cacheKeysValid (deleteNote v st ds).2.1 := by
  unfold deleteNote
  cases hg : mapGet st.cachedFileList ds with
  | none => simp only [hg]; exact hst
  | some f =>
    simp only [hg]
    split_ifs with h
    · intro p hp
      exact hst p (mapDelete_subset _ _ p hp)
    · exact hst

theorem loadNotes_preserves (v : Vault) (st : ManagerState) (now : Nat)
    (nowDate : JSDate) (options : LoadNotesOptions) (hst : cacheKeysValid st) :
    cacheKeysValid (loadNotes v st now nowDate options).2.1 := by
  have heq : (loadNotes v st now nowDate options).2.1
      = (scanDirectory v st now false).2.1 := rfl
  rw [heq]
  exact scanDirectory_preserves v st now false hst

theorem getOrCreateToday_preserves (v : Vault) (st : ManagerState) (now : Nat)
    (t : JSDate) (hst : cacheKeysValid st) (h1 : 1900 ≤ t.year) (h2 : t.year ≤ 2100)
    (h3 : t.month ≤ 11) (h4 : 1 ≤ t.day) (h5 : t.day ≤ daysInMonth0 t.year t.month) :
    cacheKeysValid (getOrCreateTodayNote v st now t).2.1 := by
  have hscan := scanDirectory_preserves v st now false hst
  unfold getOrCreateTodayNote
  dsimp only
  split_ifs with hc hs
  · exact loadNotes_preserves v _ now t
      { count := 1, startDate := some t, append := false } hscan
  · exact createNote_preserves v _ _ [] hscan (validKey_format t h1 h2 h3 h4 h5)
  · exact createNote_preserves v _ _ [] hscan (validKey_format t h1 h2 h3 h4 h5)

theorem refreshFile_preserves (v : Vault) (st : ManagerState) (ds : List Char)
    (hst : cacheKeysValid st) (hds : validKey ds = true) :
    cacheKeysValid (refreshFile v st ds) := by
  unfold refreshFile
  cases hl : v.lookup (getNotePath st ds) with
  | none =>
    simp only [hl]
    intro p hp
    exact hst p (mapDelete_subset _ _ p hp)
  | some e =>
    cases e with
    | file f =>
      simp only [hl]
      intro p hp
      exact mapSet_forall (fun p => validKey p.1 = true) _ _ _ hst hds p hp
    | folder c =>
      simp only [hl]
      intro p hp
      exact hst p (mapDelete_subset _ _ p hp)

theorem applyOp_preserves (st : ManagerState) (op : MOp) (hst : cacheKeysValid st)
    (hop : opArgsValid op) : cacheKeysValid (applyOp st op) := by
  cases op with
  | scan v now force => exact scanDirectory_preserves v st now force hst
  | create v ds content => exact createNote_preserves v st ds content hst hop
  | save v ds content => exact saveNote_preserves v st ds content hst hop
  | del v ds => exact deleteNote_preserves v st ds hst
  | getOrCreateToday v now t =>
    exact getOrCreateToday_preserves v st now t hst hop.1 hop.2.1 hop.2.2.1
      hop.2.2.2.1 hop.2.2.2.2
  | refresh v ds => exact refreshFile_preserves v st ds hst hop

theorem runOps_preserves (ops : List MOp) : ∀ st, cacheKeysValid st →
    (∀ op ∈ ops, opArgsValid op) → cacheKeysValid (runOps st ops) := by
  induction ops with
  | nil => intro st hst _; exact hst
  | cons op rest ih =>
    intro st hst hops
    exact ih _ (applyOp_preserves st op hst (hops op (by simp)))
      (fun o ho => hops o (by simp [ho]))

/-- C3 counterexample: the claim fails as stated — `createNote` (as well as
`saveNote` and `refreshFile`) inserts its date-string argument into the cache
without validating it, so the one-operation sequence `createNote "x"` from
the empty cache yields a cache key that fails date-string validation. -/
theorem claim_C3_counterexample :
    ¬ ∀ ops : List MOp,
        cacheKeysValid (runOps (initialState ("daily-notes".data)) ops) := by
  intro hall
  exact absurd (hall [MOp.create vaultC ("x".data) []]) (by decide)

/-- C3 (amended): for every sequence of operations from the empty cache in
which every `createNote`/`saveNote`/`refreshFile` argument passes date-string
validation and every `getOrCreateTodayNote` clock date is a real calendar
date with year in [1900, 2100], every key in the cache mapping passes
date-string validation. -/
theorem claim_C3_cacheInvariant (path : List Char) (ops : List MOp)
    (hops : ∀ op ∈ ops, opArgsValid op) :
    cacheKeysValid (runOps (initialState path) ops) :=
  runOps_preserves ops (initialState path)
    (by intro p hp; simp [initialState] at hp) hops

theorem claim_C3_cacheInvariant_witness :
    cacheKeysValid (runOps (initialState ("daily-notes".data))
      [MOp.create vaultC ("2026-01-15".data) [],
       MOp.del vaultC ("2026-01-15".data)]) :=
  claim_C3_cacheInvariant ("daily-notes".data) _ (by decide)

end Bonjorno
